import Mathlib

/-!
Shallow embedding of the `diskimage` package (src/diskimage/diskimage.py,
src/diskimage/filesystem.py, src/diskimage/item.py).

External collaborators (pytsk3, pyewf, the OS) are modelled as oracles baked
into the input data: each directory carries the outcome of resolving it, and
each file entry carries the outcome of the `from_items` open pipeline on its
bytes.  Everything that is control flow of the repository itself is translated
line by line from the source.
-/

namespace Diskimage

/-! ## Executable string primitives.

Re-implementations of the few string operations the source uses
(`str.lower`, `str.upper`, `str.startswith`, `str.endswith`), written over
the character list of the string so that they reduce inside the kernel.
Case mapping is ASCII (`Char.toLower`/`Char.toUpper`), adequate for the
extension tables and names considered here. -/

/-- `pre` is a prefix of `s` (character lists). -/
def charsStartWith : List Char → List Char → Bool
  | _, [] => true
  | [], _ :: _ => false
  | c :: cs, p :: ps => (c == p) && charsStartWith cs ps

/-- Python `s.startswith(pre)`. -/
def strStartsWith (s pre : String) : Bool :=
  charsStartWith s.toList pre.toList

/-- Python `s.endswith(post)`. -/
def strEndsWith (s post : String) : Bool :=
  charsStartWith s.toList.reverse post.toList.reverse

/-- Python `s.lower()` (ASCII). -/
def strLower (s : String) : String :=
  ⟨s.toList.map Char.toLower⟩

/-- Python `s.upper()` (ASCII). -/
def strUpper (s : String) : String :=
  ⟨s.toList.map Char.toUpper⟩

/-! ## Extension tables and image-type classification (diskimage.py lines 22-34, 370-391) -/

/-- `EXTENSIONS` base part: `('.dd', '.000', '.001', '.00001', '.img')`. -/
def baseExtensionList : List String := [".dd", ".000", ".001", ".00001", ".img"]

/-- `EWFEXTENSIONS = ('.e01', '.s01', '.ex01', '.lx01', '.l01')`. -/
def ewfExtensionList : List String := [".e01", ".s01", ".ex01", ".lx01", ".l01"]

/-- The module-level `EXTENSIONS` tuple: the ewf extensions are appended only
when the `pyewf` import succeeded (module flag `ewf`). -/
def extensionList (ewfAvail : Bool) : List String :=
  baseExtensionList ++ (if ewfAvail then ewfExtensionList else [])

/-- Python `name.lower().endswith(tuple)`: true when the lowercased name ends
with at least one extension of the tuple. -/
def endsWithAny (name : String) (exts : List String) : Bool :=
  exts.any (fun e => strEndsWith (strLower name) e)

/-- The three `IMAGE_*` constants of diskimage.py. -/
inductive ImageType where
  | unknown : ImageType
  | dd : ImageType
  | ewfType : ImageType
deriving DecidableEq, Repr

/-- `get_imagetype(filename)` (diskimage.py lines 370-391): ewf extensions are
checked first and classify as `IMAGE_EWF` even when pyewf is absent (only a
warning is logged); then the `EXTENSIONS` tuple gives `IMAGE_DD`; otherwise
`IMAGE_UNKNOWN`. -/
def get_imagetype (ewfAvail : Bool) (filename : String) : ImageType :=
  if endsWithAny filename ewfExtensionList then ImageType.ewfType
  else if endsWithAny filename (extensionList ewfAvail) then ImageType.dd
  else ImageType.unknown

/-! ## `os.path.join` for two arguments (used by DiskImage.find and
FileSystem.get_items) -/

/-- `os.path.join(a, b)` for exactly two components on posix. -/
def pathJoin (a b : String) : String :=
  if strStartsWith b "/" then b
  else if a = "" then b
  else if strEndsWith a "/" then a ++ b
  else a ++ "/" ++ b

/-! ## Handle-level model of `get_imagehandle` / `get_imagehandle_from_file`
(diskimage.py lines 394-460).

The two possible kinds of produced handle are kept abstract: what matters for
the claims is only which construction path produced the handle. -/

/-- Which wrapper class produced the imagehandle. -/
inductive Handle where
  | tsk : Handle
  | ewfh : Handle
deriving DecidableEq, Repr

/-- Python exceptions that can escape the open pipeline. -/
inductive PFault where
  | nameError : PFault
  | ewfError : PFault
  | ioError : PFault
deriving DecidableEq, Repr

/-- Oracle describing what the external libraries do with a given list of
`Item`s handed to `get_imagehandle`. -/
structure ItemSrc where
  /-- `items[0].open()` returns a truthy file handle. -/
  firstOpens : Bool
  /-- `pyewf` `open_file_objects` succeeds on these items (raises otherwise). -/
  ewfOpens : Bool
deriving DecidableEq, Repr

/-- Oracle describing what the external libraries do with a given path handed
to `get_imagehandle_from_file`. -/
structure FileSrc where
  /-- `ewf_handle.open(filenames)` succeeds. -/
  ewfOpens : Bool
  /-- `pytsk3.Img_Info(imagefile)` succeeds (raises otherwise). -/
  ddOpens : Bool
deriving DecidableEq, Repr

/-- The `IMAGE_EWF` branch of `get_imagehandle` (lines 405-409): it calls
`pyewf.handle()` without checking the module flag, so when pyewf was never
imported the bare name raises `NameError`; when the library is present a
failing `open_file_objects` raises out of the function (no handler). -/
def gh_ewf (ewfAvail : Bool) (src : ItemSrc) : Except PFault (Option Handle) :=
  if ewfAvail then
    if src.ewfOpens then Except.ok (some Handle.ewfh) else Except.error PFault.ewfError
  else Except.error PFault.nameError

/-- The `IMAGE_DD` branch of `get_imagehandle` (lines 410-415): wraps the first
item's file handle in `TSKFileSystemImage` (no byte validation), or returns
`None` when no file handle could be opened. -/
def gh_dd (src : ItemSrc) : Except PFault (Option Handle) :=
  if src.firstOpens then Except.ok (some Handle.tsk) else Except.ok none

/-- `get_imagehandle(items, imagetype)` (lines 394-422).  The unknown branch is
the bruteforce loop `for imagetype in [IMAGE_DD, IMAGE_EWF]`, breaking at the
first truthy handle. -/
def get_imagehandle (ewfAvail : Bool) (src : ItemSrc) :
    ImageType → Except PFault (Option Handle)
  | ImageType.ewfType => gh_ewf ewfAvail src
  | ImageType.dd => gh_dd src
  | ImageType.unknown =>
    match gh_dd src with
    | Except.ok (some h) => Except.ok (some h)
    | Except.ok none => gh_ewf ewfAvail src
    | Except.error e => Except.error e

/-- The `IMAGE_EWF` branch of `get_imagehandle_from_file` (lines 436-449): this
one is guarded by `and ewf is True`, so with pyewf absent the whole elif chain
falls through and the function returns `None`; a failing `ewf_handle.open` is
caught and turned into `return None`. -/
def ghff_ewf (ewfAvail : Bool) (src : FileSrc) : Except PFault (Option Handle) :=
  if ewfAvail then
    if src.ewfOpens then Except.ok (some Handle.ewfh) else Except.ok none
  else Except.ok none

/-- The `IMAGE_DD` branch of `get_imagehandle_from_file` (lines 450-453): a
plain `pytsk3.Img_Info(imagefile)`; a raise propagates (no handler). -/
def ghff_dd (src : FileSrc) : Except PFault (Option Handle) :=
  if src.ddOpens then Except.ok (some Handle.tsk) else Except.error PFault.ioError

/-- `get_imagehandle_from_file(imagefile, imagetype)` (lines 425-460).  The
unknown branch is the bruteforce loop `for imagetype in [IMAGE_EWF, IMAGE_DD]`,
breaking at the first truthy handle. -/
def get_imagehandle_from_file (ewfAvail : Bool) (src : FileSrc) :
    ImageType → Except PFault (Option Handle)
  | ImageType.ewfType => ghff_ewf ewfAvail src
  | ImageType.dd => ghff_dd src
  | ImageType.unknown =>
    match ghff_ewf ewfAvail src with
    | Except.ok (some h) => Except.ok (some h)
    | Except.ok none => ghff_dd src
    | Except.error e => Except.error e

/-! ## Regular expressions (model of the compiled `re` patterns used by
`DiskImage.find`).

`re.compile` is modelled as receiving an already parsed pattern (parsing the
Python regex syntax is out of scope); `re.IGNORECASE` becomes the boolean
`ic` argument, applied as lowercase folding of compared characters.
`pattern.match(s)` is anchored at the start of `s` but need not consume all of
`s`: it succeeds iff some prefix of `s` is in the pattern's language. -/

/-- Abstract syntax of the regex fragment needed here. -/
inductive Regex where
  | emp : Regex
  | eps : Regex
  | chr (c : Char) : Regex
  | dot : Regex
  | alt (a b : Regex) : Regex
  | cat (a b : Regex) : Regex
  | star (a : Regex) : Regex
deriving DecidableEq, Repr

/-- Does the pattern accept the empty string? -/
def nullable : Regex → Bool
  | Regex.emp => false
  | Regex.eps => true
  | Regex.chr _ => false
  | Regex.dot => false
  | Regex.alt a b => nullable a || nullable b
  | Regex.cat a b => nullable a && nullable b
  | Regex.star _ => true

/-- Character comparison under the optional `re.IGNORECASE` flag. -/
def charMatches (ic : Bool) (p c : Char) : Bool :=
  if ic then p.toLower == c.toLower else p == c

/-- Brzozowski derivative of the pattern by one character. -/
def deriv (ic : Bool) : Regex → Char → Regex
  | Regex.emp, _ => Regex.emp
  | Regex.eps, _ => Regex.emp
  | Regex.chr p, c => if charMatches ic p c then Regex.eps else Regex.emp
  | Regex.dot, _ => Regex.eps
  | Regex.alt a b, c => Regex.alt (deriv ic a c) (deriv ic b c)
  | Regex.cat a b, c =>
    if nullable a then Regex.alt (Regex.cat (deriv ic a c) b) (deriv ic b c)
    else Regex.cat (deriv ic a c) b
  | Regex.star a, c => Regex.cat (deriv ic a c) (Regex.star a)

/-- Full-string acceptance via iterated derivatives. -/
def accepts (ic : Bool) : Regex → List Char → Bool
  | r, [] => nullable r
  | r, c :: cs => accepts ic (deriv ic r c) cs

/-- `pattern.match(s)` truthiness: some prefix of `s` is accepted. -/
def reMatch (ic : Bool) (r : Regex) (s : String) : Bool :=
  (List.range (s.length + 1)).any fun k => accepts ic r (s.toList.take k)

/-! ## Item (item.py) -/

/-- `diskimage.Item` as observable after `from_pytsk_item`: `type` is
`some "dir"` for directories and `none` otherwise (the Python attribute stays
`None`); `parents` is the ancestry list assigned by the enumerators. -/
structure Item where
  name : String
  path : String
  type : Option String
  inode : Nat
  parents : List String
deriving DecidableEq, Repr

/-! ## The filesystem/nested-image tree.

One mutually inductive family describes everything the external libraries
would answer during an enumeration:

* an entry either lacks a metadata block (`from_pytsk_item` returns `None`)
  or carries address, kind, the outcome of resolving it as a directory and
  the outcome of the `from_items` open pipeline on its bytes;
* a directory resolution either fails (`get_directory` returns `None`) or
  gives the ordered entry list;
* opening an entry as a nested image either produces no imagehandle
  (`from_items` returns `None`) or produces a handle whose
  `get_filesystems` found the given list of filesystems, each given by the
  resolution of its root directory. -/

mutual
inductive Ent where
  | noMeta (name : String) : Ent
  | entry (name : String) (addr : Nat) (isDir : Bool) (sub : DirRes) (op : OpenRes) : Ent
inductive DirRes where
  | unresolved : DirRes
  | resolved (ents : EntL) : DirRes
inductive EntL where
  | nil : EntL
  | cons (e : Ent) (rest : EntL) : EntL
inductive OpenRes where
  | noHandle : OpenRes
  | opened (fss : FSL) : OpenRes
inductive FSL where
  | dnil : FSL
  | dcons (root : DirRes) (rest : FSL) : FSL
end

/-- Convenience constructor for entry lists. -/
def entL : List Ent → EntL
  | [] => EntL.nil
  | e :: es => EntL.cons e (entL es)

/-- Convenience constructor for filesystem lists. -/
def fsL : List DirRes → FSL
  | [] => FSL.dnil
  | r :: rs => FSL.dcons r (fsL rs)

/-! ## FileSystem.get_items (filesystem.py lines 63-93).

The generator yields `Option Item` values: the explicit `yield None` marker
when the requested directory cannot be resolved, and `some` items otherwise.
Each yielded item is paired with its open-pipeline oracle so that the
DiskImage layer can model `from_items([item], ...)`.  The boolean records
whether an exception escapes the generator after the listed prefix
(`TypeError` from iterating over `None`); an exception raised by a recursive
subdirectory call is caught by the `except Exception: continue` of the caller
and therefore absorbed, but the items the inner generator already yielded
(including its `None` marker) pass through. -/

mutual
def fsItemsRes (path : String) (res : DirRes) (recursive : Bool) :
    List (Option (Item × OpenRes)) × Bool :=
  match res with
  | DirRes.unresolved => ([none], true)
  | DirRes.resolved ents => (fsItemsEnts path ents recursive, false)
def fsItemsEnts (path : String) (ents : EntL) (recursive : Bool) :
    List (Option (Item × OpenRes)) :=
  match ents with
  | EntL.nil => []
  | EntL.cons e rest =>
    (match e with
     | Ent.noMeta _ => []
     | Ent.entry name addr isDir sub op =>
       if name = "." ∨ name = ".." then []
       else
         some (⟨name, path, if isDir then some "dir" else none, addr, []⟩, op) ::
           (if recursive && isDir then (fsItemsRes (pathJoin path name) sub recursive).1
            else []))
      ++ fsItemsEnts path rest recursive
end

/-! ## DiskImage.get_items (diskimage.py lines 53-83).

`DiskImage.get_items` consumes `filesystem.get_items(recursive=True)` — the
inner flag is hardcoded `True` — overwrites each item's `parents` with the
per-filesystem ancestry, yields it, and (only when its own `recursive` flag is
set) re-enters any item whose name ends with a supported extension.  The fused
functions below walk the same tree the filesystem generator walks, in the same
order; `fsItemsFactorEnts`/`fsItemsFactorRes` (proved later) relate them to
`fsItemsEnts`/`fsItemsRes`.

Faults (recorded in the boolean, which truncates the sequence):
* a `None` yielded by the filesystem generator hits `item.parents = fsparents`
  and raises `AttributeError`;
* `from_items` returning `None` (no imagehandle) hits `di.filesystems` on
  `None` and raises `AttributeError`;
* a fault inside a nested image's enumeration propagates (no handler). -/

/-- Sequencing of (yielded items, fault) pairs: a fault in the first part
truncates everything after it. -/
def seqF (a b : List Item × Bool) : List Item × Bool :=
  if a.2 then a else (a.1 ++ b.1, b.2)

mutual
def diProcRes (ewfAvail : Bool) (fsp : List String) (path : String) (res : DirRes)
    (recursive : Bool) : List Item × Bool :=
  match res with
  | DirRes.unresolved => ([], true)
  | DirRes.resolved ents => diProcEnts ewfAvail fsp path ents recursive
def diProcEnts (ewfAvail : Bool) (fsp : List String) (path : String) (ents : EntL)
    (recursive : Bool) : List Item × Bool :=
  match ents with
  | EntL.nil => ([], false)
  | EntL.cons e rest =>
    match e with
    | Ent.noMeta _ => diProcEnts ewfAvail fsp path rest recursive
    | Ent.entry name addr isDir sub op =>
      if name = "." ∨ name = ".." then diProcEnts ewfAvail fsp path rest recursive
      else
        seqF (seqF (seqF ([⟨name, path, if isDir then some "dir" else none, addr, fsp⟩], false)
          (if recursive && endsWithAny name (extensionList ewfAvail) then
            match op with
            | OpenRes.noHandle => ([], true)
            | OpenRes.opened FSL.dnil => ([], false)
            | OpenRes.opened (FSL.dcons r rs) =>
              diFss ewfAvail (fsp ++ [name]) 0 (FSL.dcons r rs) true
           else ([], false)))
          (if isDir then diProcRes ewfAvail fsp (pathJoin path name) sub recursive
           else ([], false)))
          (diProcEnts ewfAvail fsp path rest recursive)
def diFss (ewfAvail : Bool) (parents : List String) (i : Nat) (fss : FSL)
    (recursive : Bool) : List Item × Bool :=
  match fss with
  | FSL.dnil => ([], false)
  | FSL.dcons root rest =>
    seqF (diProcRes ewfAvail (parents ++ ["fs" ++ toString i]) "/" root recursive)
      (diFss ewfAvail parents (i + 1) rest recursive)
end

/-- `diskimage.DiskImage`: `name`, `parents` and the filesystems found at
construction (each represented by the resolution of its root directory). -/
structure DImg where
  name : String
  parents : List String
  filesystems : FSL

/-- `DiskImage.get_items(recursive)`: empty when there are no filesystems;
otherwise each filesystem is enumerated with ancestry
`self.parents + [self.name, "fsN"]`. -/
def DImg.getItems (ewfAvail : Bool) (d : DImg) (recursive : Bool) : List Item × Bool :=
  match d.filesystems with
  | FSL.dnil => ([], false)
  | FSL.dcons r rs => diFss ewfAvail (d.parents ++ [d.name]) 0 (FSL.dcons r rs) recursive

/-- The side effect of running `get_items` on `self.parents`: lines 66-67 bind
`parents = self.parents` (an alias, not a copy) and then
`parents.append(self.name)`, so after the generator body has started the
instance's own `parents` list has grown by `self.name`.  Nothing is appended
when there are no filesystems (the append sits inside the `if`). -/
def DImg.afterGetItems (d : DImg) : DImg :=
  match d.filesystems with
  | FSL.dnil => d
  | FSL.dcons _ _ => { d with parents := d.parents ++ [d.name] }

/-! ## DiskImage.find (diskimage.py lines 85-118) -/

/-- The per-item test of `DiskImage.find`: with `regex` set, the compiled
pattern is matched (anchored at the start) against
`os.path.join(item.path, item.name)`; otherwise the bare `item.name` is
compared for equality with the search string, uppercasing both sides when
`ignorecase` is set. -/
def findTest (string : String) (pattern : Regex) (ignorecase regexFlag : Bool)
    (it : Item) : Bool :=
  if regexFlag then reMatch ignorecase pattern (pathJoin it.path it.name)
  else if ignorecase then strUpper it.name == strUpper string
  else it.name == string

/-- `DiskImage.find(string, recursive, ignorecase, regex)`: filters the lazy
`get_items(recursive=recursive)` sequence with `findTest`; a fault of the
underlying enumeration propagates through the `for` loop. -/
def DImg.find (ewfAvail : Bool) (d : DImg) (string : String) (pattern : Regex)
    (recursive ignorecase regexFlag : Bool) : List Item × Bool :=
  ((DImg.getItems ewfAvail d recursive).1.filter (findTest string pattern ignorecase regexFlag),
   (DImg.getItems ewfAvail d recursive).2)

/-! ## DiskImage.get_items factored through FileSystem.get_items.

`assignParents` is the processing `DiskImage.get_items` applies to the raw
stream of `filesystem.get_items(recursive=True)` when its own `recursive`
flag is off: overwrite `item.parents` with the per-filesystem ancestry and
yield; a `None` marker hits `item.parents = fsparents` and raises
`AttributeError`, truncating the sequence with a fault. -/

def assignParents (fsp : List String) : List (Option (Item × OpenRes)) → List Item × Bool
  | [] => ([], false)
  | none :: _ => ([], true)
  | some (it, _) :: rest =>
    (({ it with parents := fsp }) :: (assignParents fsp rest).1, (assignParents fsp rest).2)

/-- The whole non-recursive `DiskImage.get_items` body expressed through the
`FileSystem.get_items` model: filesystem number `i` is enumerated fully
recursively and its items re-tagged with ancestry `parents ++ ["fsI"]`. -/
def fssAssign (parents : List String) (i : Nat) : FSL → List Item × Bool
  | FSL.dnil => ([], false)
  | FSL.dcons root rest =>
    seqF (assignParents (parents ++ ["fs" ++ toString i]) (fsItemsRes "/" root true).1)
      (fssAssign parents (i + 1) rest)

/-! ## Aliasing model for the `parents` default arguments (diskimage.py line
47, filesystem.py lines 21-33, item.py lines 18-24).

Python evaluates a `def f(x=[])` default once, at function definition time;
every call that omits the argument receives the *same* list object.  The heap
below holds the list objects; an entity stores only a reference (index). -/

/-- A heap of Python list objects holding the ancestry lists. -/
structure Heap where
  lists : List (List String)
deriving DecidableEq, Repr

/-- Dereference a list object. -/
def Heap.get (h : Heap) (r : Nat) : List String :=
  h.lists.getD r []

/-- In-place update of a list object (e.g. `lst.append(x)`). -/
def Heap.store (h : Heap) (r : Nat) (v : List String) : Heap :=
  ⟨h.lists.set r v⟩

/-- Allocate a fresh list object. -/
def Heap.alloc (h : Heap) (v : List String) : Heap × Nat :=
  (⟨h.lists ++ [v]⟩, h.lists.length)

/-- The heap after `import diskimage`: object 0 is the `parents=[]` default of
`DiskImage.__init__`, object 1 the `parents=[]` default of
`DiskImage.from_items`. -/
def heapAtImport : Heap := ⟨[[], []]⟩

/-- The shared default list object of `DiskImage.__init__`. -/
def diskImageDefaultRef : Nat := 0

/-- `DiskImage` as a holder of a reference to its `parents` list object. -/
structure DImgR where
  name : String
  parentsRef : Nat
deriving DecidableEq, Repr

/-- `DiskImage.__init__(name, parents=[])` (diskimage.py lines 47-51):
`self.parents = parents` stores the reference; omitting the argument stores a
reference to the module-wide default object.  No allocation happens. -/
def diskImageInitR (h : Heap) (name : String) (parentsArg : Option Nat) : Heap × DImgR :=
  (h, ⟨name, parentsArg.getD diskImageDefaultRef⟩)

/-- `Item.__init__` (item.py lines 18-24): `self.parents = []` builds a fresh
list object on every call; returns the reference to it. -/
def itemInitParents (h : Heap) : Heap × Nat :=
  h.alloc []

/-- `FileSystem.__init__(..., parents=[])` (filesystem.py lines 21-34): the
`parents` parameter is accepted but ignored; the body does `self.parents = []`,
a fresh object per call. -/
def fileSystemInitParents (h : Heap) (_parentsArg : Option Nat) : Heap × Nat :=
  h.alloc []

/-- The `parents = self.parents; parents.append(self.name)` of
`DiskImage.get_items` (lines 66-67): an in-place append through the stored
reference. -/
def diAppendNameR (h : Heap) (d : DImgR) : Heap :=
  h.store d.parentsRef (h.get d.parentsRef ++ [d.name])

/-! ## Concrete example inputs used by counterexamples and witnesses. -/

/-- A disk image with one filesystem holding one directory `d` that contains
one plain file `f.txt`; no name matches a container extension. -/
def exDirFile : DImg :=
  ⟨"outer.dd", [],
    fsL [DirRes.resolved (entL [Ent.entry "d" 7 true
      (DirRes.resolved (entL [Ent.entry "f.txt" 8 false (DirRes.resolved EntL.nil)
        OpenRes.noHandle]))
      OpenRes.noHandle])]⟩

/-- A disk image whose single filesystem holds one file `x.dd` for which the
open pipeline produces no imagehandle (`from_items` returns `None`). -/
def exNoHandle : DImg :=
  ⟨"outer.dd", [],
    fsL [DirRes.resolved (entL [Ent.entry "x.dd" 5 false (DirRes.resolved EntL.nil)
      OpenRes.noHandle])]⟩

/-- A disk image whose single filesystem holds one file `x.dd` that opens fine
but in which `get_filesystems` finds no filesystem. -/
def exOpenedEmpty : DImg :=
  ⟨"outer.dd", [],
    fsL [DirRes.resolved (entL [Ent.entry "x.dd" 5 false (DirRes.resolved EntL.nil)
      (OpenRes.opened FSL.dnil)])]⟩

/-- A disk image whose single filesystem holds `inner.dd`, a nested image with
one filesystem containing one file `note.txt`, followed by a sibling
`after.txt`. -/
def exNested : DImg :=
  ⟨"outer.dd", [],
    fsL [DirRes.resolved (entL
      [Ent.entry "inner.dd" 5 false (DirRes.resolved EntL.nil)
        (OpenRes.opened (fsL [DirRes.resolved (entL
          [Ent.entry "note.txt" 9 false (DirRes.resolved EntL.nil) OpenRes.noHandle])])),
       Ent.entry "after.txt" 6 false (DirRes.resolved EntL.nil) OpenRes.noHandle])]⟩

/-- A disk image with a single filesystem holding one plain file. -/
def exSimple : DImg :=
  ⟨"a.dd", [],
    fsL [DirRes.resolved (entL [Ent.entry "f.txt" 3 false (DirRes.resolved EntL.nil)
      OpenRes.noHandle])]⟩

/-- A disk image with no filesystems. -/
def exEmpty : DImg := ⟨"none.dd", [], FSL.dnil⟩

/-! # Theorems -/

/-! ## seqF and assignParents lemmas -/

theorem seqF_of_fault {a : List Item × Bool} (b : List Item × Bool) (h : a.2 = true) :
    seqF a b = a := by
  simp [seqF, h]

theorem seqF_of_ok {a : List Item × Bool} (b : List Item × Bool) (h : a.2 = false) :
    seqF a b = (a.1 ++ b.1, b.2) := by
  simp [seqF, h]

theorem seqF_nilok (a : List Item × Bool) : seqF a ([], false) = a := by
  obtain ⟨l, f⟩ := a
  cases f <;> simp [seqF]

theorem seqF_snd_false {a b : List Item × Bool} :
    (seqF a b).2 = false ↔ a.2 = false ∧ b.2 = false := by
  cases ha : a.2 <;> simp [seqF, ha]

theorem seqF_cons (x : Item) (a b : List Item × Bool) :
    seqF (x :: a.1, a.2) b = (x :: (seqF a b).1, (seqF a b).2) := by
  cases ha : a.2 <;> simp [seqF, ha]

theorem seqF_nil_left (b : List Item × Bool) : seqF ([], false) b = b := rfl

theorem assignParents_append (fsp : List String) (xs ys : List (Option (Item × OpenRes))) :
    assignParents fsp (xs ++ ys) = seqF (assignParents fsp xs) (assignParents fsp ys) := by
  induction xs with
  | nil =>
    exact (seqF_nil_left (assignParents fsp ys)).symm
  | cons x xs ih =>
    match x with
    | none => simp [assignParents, seqF]
    | some (it, op) =>
      simp only [List.cons_append, assignParents, List.append_eq, ih]
      exact (seqF_cons _ (assignParents fsp xs) (assignParents fsp ys)).symm

theorem assign_cons_append (fsp : List String) (it0 : Item) (op : OpenRes)
    (m rl : List (Option (Item × OpenRes))) :
    assignParents fsp (some (it0, op) :: (m ++ rl)) =
      (({ it0 with parents := fsp }) :: (seqF (assignParents fsp m) (assignParents fsp rl)).1,
        (seqF (assignParents fsp m) (assignParents fsp rl)).2) := by
  simp [assignParents, assignParents_append]

theorem seqF_shape (itm : Item) (s r : List Item × Bool) :
    seqF (seqF (seqF ([itm], false) ([], false)) s) r =
      (itm :: (seqF s r).1, (seqF s r).2) := by
  rw [seqF_nilok]
  rw [seqF_of_ok s rfl]
  exact seqF_cons itm s r

/-! ## Factoring DiskImage.get_items (recursive=False) through
FileSystem.get_items (recursive=True) -/

mutual
theorem factorRes (e : Bool) (fsp : List String) (path : String) (res : DirRes) :
    diProcRes e fsp path res false = assignParents fsp (fsItemsRes path res true).1 :=
  match res with
  | DirRes.unresolved => by simp [diProcRes, fsItemsRes, assignParents]
  | DirRes.resolved ents => by
    simpa [diProcRes, fsItemsRes] using factorEnts e fsp path ents
theorem factorEnts (e : Bool) (fsp : List String) (path : String) (ents : EntL) :
    diProcEnts e fsp path ents false = assignParents fsp (fsItemsEnts path ents true) :=
  match ents with
  | EntL.nil => by simp [diProcEnts, fsItemsEnts, assignParents]
  | EntL.cons (Ent.noMeta n) rest => by
    simpa [diProcEnts, fsItemsEnts] using factorEnts e fsp path rest
  | EntL.cons (Ent.entry name addr isDir sub op) rest => by
    have hrest := factorEnts e fsp path rest
    by_cases hdot : name = "." ∨ name = ".."
    · simpa [diProcEnts, fsItemsEnts, hdot] using hrest
    · have hsub := factorRes e fsp (pathJoin path name) sub
      simp only [diProcEnts, fsItemsEnts]
      rw [if_neg hdot, if_neg hdot]
      cases isDir with
      | true =>
        change seqF (seqF (seqF ([⟨name, path, some "dir", addr, fsp⟩], false) ([], false))
            (diProcRes e fsp (pathJoin path name) sub false))
            (diProcEnts e fsp path rest false) =
          assignParents fsp ((some (⟨name, path, some "dir", addr, []⟩, op) ::
            (fsItemsRes (pathJoin path name) sub true).1) ++ fsItemsEnts path rest true)
        rw [seqF_shape, List.cons_append, assign_cons_append, ← hrest, ← hsub]
      | false =>
        change seqF (seqF (seqF ([⟨name, path, none, addr, fsp⟩], false) ([], false)) ([], false))
            (diProcEnts e fsp path rest false) =
          assignParents fsp (some (⟨name, path, none, addr, []⟩, op) ::
            fsItemsEnts path rest true)
        rw [seqF_shape]
        simp only [assignParents]
        rw [← hrest]
        rfl
end

/-! ## One-step unfolding equations for the mutually recursive enumerators -/

theorem diProcRes_unresolved {e : Bool} {fsp : List String} {path : String} {r : Bool} :
    diProcRes e fsp path DirRes.unresolved r = ([], true) := by
  rw [diProcRes.eq_def]

theorem diProcRes_resolved {e : Bool} {fsp : List String} {path : String} {ents : EntL}
    {r : Bool} :
    diProcRes e fsp path (DirRes.resolved ents) r = diProcEnts e fsp path ents r := by
  rw [diProcRes.eq_def]

theorem diProcEnts_nil {e : Bool} {fsp : List String} {path : String} {r : Bool} :
    diProcEnts e fsp path EntL.nil r = ([], false) := by
  rw [diProcEnts.eq_def]

theorem diProcEnts_noMeta {e : Bool} {fsp : List String} {path n : String} {rest : EntL}
    {r : Bool} :
    diProcEnts e fsp path (EntL.cons (Ent.noMeta n) rest) r =
      diProcEnts e fsp path rest r := by
  rw [diProcEnts.eq_def]

theorem diProcEnts_dot {e : Bool} {fsp : List String} {path name : String} {addr : Nat}
    {isDir : Bool} {sub : DirRes} {op : OpenRes} {rest : EntL} {r : Bool}
    (hdot : name = "." ∨ name = "..") :
    diProcEnts e fsp path (EntL.cons (Ent.entry name addr isDir sub op) rest) r =
      diProcEnts e fsp path rest r := by
  rw [diProcEnts.eq_def]
  exact if_pos hdot

theorem diProcEnts_entry {e : Bool} {fsp : List String} {path name : String} {addr : Nat}
    {isDir : Bool} {sub : DirRes} {op : OpenRes} {rest : EntL} {r : Bool}
    (hdot : ¬(name = "." ∨ name = "..")) :
    diProcEnts e fsp path (EntL.cons (Ent.entry name addr isDir sub op) rest) r =
      seqF (seqF (seqF ([⟨name, path, if isDir then some "dir" else none, addr, fsp⟩], false)
        (if r && endsWithAny name (extensionList e) then
          match op with
          | OpenRes.noHandle => ([], true)
          | OpenRes.opened FSL.dnil => ([], false)
          | OpenRes.opened (FSL.dcons a b) => diFss e (fsp ++ [name]) 0 (FSL.dcons a b) true
         else ([], false)))
        (if isDir then diProcRes e fsp (pathJoin path name) sub r else ([], false)))
        (diProcEnts e fsp path rest r) := by
  rw [diProcEnts.eq_def]
  exact if_neg hdot

theorem diFss_nil {e : Bool} {parents : List String} {i : Nat} {r : Bool} :
    diFss e parents i FSL.dnil r = ([], false) := by
  rw [diFss.eq_def]

theorem diFss_cons {e : Bool} {parents : List String} {i : Nat} {root : DirRes} {rest : FSL}
    {r : Bool} :
    diFss e parents i (FSL.dcons root rest) r =
      seqF (diProcRes e (parents ++ ["fs" ++ toString i]) "/" root r)
        (diFss e parents (i + 1) rest r) := by
  rw [diFss.eq_def]

theorem fsItemsRes_unresolved {path : String} {r : Bool} :
    fsItemsRes path DirRes.unresolved r = ([none], true) := by
  rw [fsItemsRes.eq_def]

theorem fsItemsRes_resolved {path : String} {ents : EntL} {r : Bool} :
    fsItemsRes path (DirRes.resolved ents) r = (fsItemsEnts path ents r, false) := by
  rw [fsItemsRes.eq_def]

theorem chain_snd3 (x : Item) (n s r : List Item × Bool) :
    (seqF (seqF (seqF ([x], false) n) s) r).2 = false ↔
      n.2 = false ∧ s.2 = false ∧ r.2 = false := by
  rw [seqF_snd_false, seqF_snd_false, seqF_snd_false]
  simp [and_assoc]

theorem chain_fst3 (x : Item) (n s r : List Item × Bool) (hn : n.2 = false)
    (hs : s.2 = false) :
    (seqF (seqF (seqF ([x], false) n) s) r).1 = x :: (n.1 ++ (s.1 ++ r.1)) := by
  rw [@seqF_of_ok ([x], false) n rfl]
  rw [@seqF_of_ok ([x] ++ n.1, n.2) s hn]
  rw [@seqF_of_ok (([x] ++ n.1) ++ s.1, s.2) r hs]
  simp

theorem factorFss (e : Bool) (parents : List String) (i : Nat) (fss : FSL) :
    diFss e parents i fss false = fssAssign parents i fss :=
  match fss with
  | FSL.dnil => by simp [diFss, fssAssign]
  | FSL.dcons root rest => by
    rw [diFss, fssAssign, factorRes, factorFss e parents (i + 1) rest]

/-! ## Recursive enumeration is a sublist-superset of the non-recursive one
(on fault-free recursive runs) -/

mutual
theorem subRes (e : Bool) (fsp : List String) (path : String) (res : DirRes)
    (h : (diProcRes e fsp path res true).2 = false) :
    (diProcRes e fsp path res false).2 = false ∧
      List.Sublist (diProcRes e fsp path res false).1 (diProcRes e fsp path res true).1 :=
  match res with
  | DirRes.unresolved => by
    rw [diProcRes_unresolved] at h
    exact absurd h (by decide)
  | DirRes.resolved ents => by
    rw [diProcRes_resolved] at h
    rw [diProcRes_resolved, diProcRes_resolved]
    exact subEnts e fsp path ents h
termination_by sizeOf res
theorem subEnts (e : Bool) (fsp : List String) (path : String) (ents : EntL)
    (h : (diProcEnts e fsp path ents true).2 = false) :
    (diProcEnts e fsp path ents false).2 = false ∧
      List.Sublist (diProcEnts e fsp path ents false).1 (diProcEnts e fsp path ents true).1 :=
  match ents with
  | EntL.nil => by
    rw [diProcEnts_nil, diProcEnts_nil]
    exact ⟨rfl, List.Sublist.refl _⟩
  | EntL.cons (Ent.noMeta n) rest => by
    rw [diProcEnts_noMeta] at h
    rw [diProcEnts_noMeta, diProcEnts_noMeta]
    exact subEnts e fsp path rest h
  | EntL.cons (Ent.entry name addr isDir sub op) rest => by
    by_cases hdot : name = "." ∨ name = ".."
    · rw [diProcEnts_dot hdot] at h
      rw [diProcEnts_dot hdot, diProcEnts_dot hdot]
      exact subEnts e fsp path rest h
    · rw [diProcEnts_entry hdot] at h
      rw [diProcEnts_entry hdot, diProcEnts_entry hdot]
      rw [chain_snd3] at h
      obtain ⟨hN, hS, hR⟩ := h
      obtain ⟨hRf, hRsub⟩ := subEnts e fsp path rest hR
      cases isDir with
      | true =>
        have hS2 : (diProcRes e fsp (pathJoin path name) sub true).2 = false := hS
        obtain ⟨hSf, hSsub⟩ := subRes e fsp (pathJoin path name) sub hS2
        simp only [Bool.false_and, Bool.false_eq_true, if_false, eq_self_iff_true, if_true]
        refine ⟨?_, ?_⟩
        · rw [chain_snd3]
          exact ⟨rfl, hSf, hRf⟩
        · rw [chain_fst3 _ ([], false) _ _ rfl hSf]
          rw [chain_fst3 _ _ _ _ hN hS2]
          exact List.Sublist.cons₂ _
            ((List.Sublist.append hSsub hRsub).trans
              (List.sublist_append_right _ _))
      | false =>
        simp only [Bool.false_and, Bool.false_eq_true, if_false]
        refine ⟨?_, ?_⟩
        · rw [chain_snd3]
          exact ⟨rfl, rfl, hRf⟩
        · rw [chain_fst3 _ ([], false) ([], false) _ rfl rfl]
          rw [chain_fst3 _ _ ([], false) _ hN rfl]
          exact List.Sublist.cons₂ _
            (hRsub.trans (List.sublist_append_right _ _))
termination_by sizeOf ents
end

theorem subFss (e : Bool) (parents : List String) (i : Nat) (fss : FSL)
    (h : (diFss e parents i fss true).2 = false) :
    (diFss e parents i fss false).2 = false ∧
      List.Sublist (diFss e parents i fss false).1 (diFss e parents i fss true).1 :=
  match fss with
  | FSL.dnil => by
    rw [diFss_nil, diFss_nil]
    exact ⟨rfl, List.Sublist.refl _⟩
  | FSL.dcons root rest => by
    rw [diFss_cons] at h
    rw [diFss_cons, diFss_cons]
    rw [seqF_snd_false] at h
    obtain ⟨hRoot, hRest⟩ := h
    obtain ⟨hRf, hRsub⟩ := subRes e (parents ++ ["fs" ++ toString i]) "/" root hRoot
    obtain ⟨hTf, hTsub⟩ := subFss e parents (i + 1) rest hRest
    refine ⟨?_, ?_⟩
    · rw [seqF_snd_false]
      exact ⟨hRf, hTf⟩
    · rw [@seqF_of_ok (diProcRes e (parents ++ ["fs" ++ toString i]) "/" root false)
        (diFss e parents (i + 1) rest false) hRf]
      rw [@seqF_of_ok (diProcRes e (parents ++ ["fs" ++ toString i]) "/" root true)
        (diFss e parents (i + 1) rest true) hRoot]
      exact List.Sublist.append hRsub hTsub

/-! # Claim theorems -/

/-- A seqF chain variant used by the splice statement: when the nested part is
fault-free, the yielded prefix splits off the triggering item and the nested
items before whatever the rest of the enumeration produces. -/
theorem chain_fst3n (x : Item) (n s r : List Item × Bool) (hn : n.2 = false) :
    (seqF (seqF (seqF ([x], false) n) s) r).1 = x :: (n.1 ++ (seqF s r).1) := by
  obtain ⟨nl, nf⟩ := n
  obtain ⟨sl, sf⟩ := s
  obtain ⟨rl, rf⟩ := r
  simp only at hn
  subst hn
  cases sf <;> simp [seqF]

/-- Claim C1 (counterexample): on a disk image whose single filesystem holds a
directory `d` containing a file `f.txt`, `get_items(recursive=False)` yields
both items, not just the immediate child `d` — the `recursive` flag does not
suppress subdirectory traversal; and `get_items(recursive=True)` returns the
very same sequence here, so it is not a strict superset. -/
theorem claim1_counterexample :
    (DImg.getItems false exDirFile false).1.map Item.name ≠ ["d"] ∧
    DImg.getItems false exDirFile true = DImg.getItems false exDirFile false := by
  exact ⟨by decide, rfl⟩

/-- Claim C1 (amended): `get_items(recursive=False)` yields exactly the items
of each mounted filesystem's fully recursive traversal
(`filesystem.get_items(recursive=True)`, subdirectory contents included),
re-tagged with the per-filesystem ancestry; and whenever the recursive run
completes without fault, the non-recursive sequence is a sublist of the
recursive one (the recursive run only splices extra nested-image blocks in). -/
theorem claim1_amended : ∀ (e : Bool) (d : DImg),
    (d.filesystems ≠ FSL.dnil →
      DImg.getItems e d false = fssAssign (d.parents ++ [d.name]) 0 d.filesystems) ∧
    ((DImg.getItems e d true).2 = false →
      List.Sublist (DImg.getItems e d false).1 (DImg.getItems e d true).1) := by
  intro e d
  constructor
  · intro hne
    cases hfs : d.filesystems with
    | dnil => exact absurd hfs hne
    | dcons r rs =>
      simp only [DImg.getItems, hfs]
      exact factorFss e (d.parents ++ [d.name]) 0 (FSL.dcons r rs)
  · intro hf
    cases hfs : d.filesystems with
    | dnil =>
      simp only [DImg.getItems, hfs]
      exact List.Sublist.refl _
    | dcons r rs =>
      simp only [DImg.getItems, hfs] at hf ⊢
      exact (subFss e (d.parents ++ [d.name]) 0 (FSL.dcons r rs) hf).2

/-- Claim C1 (witness): the amended statement applied to `exDirFile`. -/
theorem claim1_amended_witness :
    DImg.getItems false exDirFile false =
      fssAssign (exDirFile.parents ++ [exDirFile.name]) 0 exDirFile.filesystems ∧
    List.Sublist (DImg.getItems false exDirFile false).1
      (DImg.getItems false exDirFile true).1 :=
  ⟨(claim1_amended false exDirFile).1 (fun hcontra => FSL.noConfusion hcontra),
   (claim1_amended false exDirFile).2 rfl⟩

/-- Claim C2: when a yielded item whose name matches a container extension
cannot be opened (`from_items` returns `None` because no imagehandle could be
obtained), the enumeration does NOT continue silently: the unguarded
`di.filesystems` attribute access on `None` raises `AttributeError`
(fault flag true) right after the item itself was yielded.  Only the
"opened but no filesystems" half of the claim behaves as stated (second
conjunct: zero extra items, no fault), and without the recursive flag the
same item causes no fault at all (third conjunct). -/
theorem claim2_open_failure_faults :
    DImg.getItems false exNoHandle true =
      ([⟨"x.dd", "/", none, 5, ["outer.dd", "fs0"]⟩], true) ∧
    DImg.getItems false exOpenedEmpty true =
      ([⟨"x.dd", "/", none, 5, ["outer.dd", "fs0"]⟩], false) ∧
    DImg.getItems false exNoHandle false =
      ([⟨"x.dd", "/", none, 5, ["outer.dd", "fs0"]⟩], false) :=
  ⟨rfl, rfl, rfl⟩

/-- Claim C3: in a recursive enumeration, an item whose name matches a
container extension and which opens as a nested image with at least one
filesystem contributes, in order: the item itself, then the whole nested
enumeration — invoked with `recursive := true` (the `di.get_items()` default),
not with the caller's flag — then the item's own subdirectory expansion,
then the remaining siblings; with the nested run fault-free the yielded list
is literally `item :: nested ++ rest`. -/
theorem claim3_splice : ∀ (e : Bool) (fsp : List String) (path name : String) (addr : Nat)
    (isDir : Bool) (sub : DirRes) (fss : FSL) (rest : EntL),
    endsWithAny name (extensionList e) = true →
    ¬(name = "." ∨ name = "..") →
    fss ≠ FSL.dnil →
    (diProcEnts e fsp path
        (EntL.cons (Ent.entry name addr isDir sub (OpenRes.opened fss)) rest) true =
      seqF (seqF (seqF ([⟨name, path, if isDir then some "dir" else none, addr, fsp⟩], false)
        (diFss e (fsp ++ [name]) 0 fss true))
        (if isDir then diProcRes e fsp (pathJoin path name) sub true else ([], false)))
        (diProcEnts e fsp path rest true)) ∧
    ((diFss e (fsp ++ [name]) 0 fss true).2 = false →
      (diProcEnts e fsp path
          (EntL.cons (Ent.entry name addr isDir sub (OpenRes.opened fss)) rest) true).1 =
        ⟨name, path, if isDir then some "dir" else none, addr, fsp⟩ ::
          ((diFss e (fsp ++ [name]) 0 fss true).1 ++
            (seqF (if isDir then diProcRes e fsp (pathJoin path name) sub true
                   else ([], false))
              (diProcEnts e fsp path rest true)).1)) := by
  intro e fsp path name addr isDir sub fss rest hm hdot hfss
  cases fss with
  | dnil => exact absurd rfl hfss
  | dcons a b =>
    have hstep : diProcEnts e fsp path
        (EntL.cons (Ent.entry name addr isDir sub
          (OpenRes.opened (FSL.dcons a b))) rest) true =
      seqF (seqF (seqF ([⟨name, path, if isDir then some "dir" else none, addr, fsp⟩], false)
        (diFss e (fsp ++ [name]) 0 (FSL.dcons a b) true))
        (if isDir then diProcRes e fsp (pathJoin path name) sub true else ([], false)))
        (diProcEnts e fsp path rest true) := by
      rw [diProcEnts_entry hdot]
      simp only [hm, Bool.and_true, if_true]
    refine ⟨hstep, ?_⟩
    intro hnf
    rw [hstep]
    exact chain_fst3n _ _ _ _ hnf

/-- Claim C3 (witness): the splice equation at a concrete nested image. -/
theorem claim3_splice_witness :
    diProcEnts false [] "/" (EntL.cons (Ent.entry "a.dd" 0 false (DirRes.resolved EntL.nil)
        (OpenRes.opened (FSL.dcons (DirRes.resolved EntL.nil) FSL.dnil))) EntL.nil) true =
      seqF (seqF (seqF ([⟨"a.dd", "/", none, 0, []⟩], false)
        (diFss false ["a.dd"] 0 (FSL.dcons (DirRes.resolved EntL.nil) FSL.dnil) true))
        ([], false))
        (diProcEnts false [] "/" EntL.nil true) :=
  (claim3_splice false [] "/" "a.dd" 0 false (DirRes.resolved EntL.nil)
    (FSL.dcons (DirRes.resolved EntL.nil) FSL.dnil) EntL.nil
    (by decide) (by decide) (fun hcontra => FSL.noConfusion hcontra)).1

/-- Claim C4 (counterexample): for an input of unknown type where both open
attempts would succeed, the item-based resolver returns the raw/pytsk handle
(it tries `IMAGE_DD` first), while the path-based resolver returns the
segmented handle — so it is false that both attempt Segmented first. -/
theorem claim4_counterexample :
    get_imagehandle true ⟨true, true⟩ ImageType.unknown = Except.ok (some Handle.tsk) ∧
    get_imagehandle_from_file true ⟨true, true⟩ ImageType.unknown =
      Except.ok (some Handle.ewfh) ∧
    Handle.tsk ≠ Handle.ewfh :=
  ⟨rfl, rfl, by decide⟩

/-- Claim C4 (amended): on `Unknown` inputs, `get_imagehandle_from_file` tries
Segmented (EWF) first and falls back to Raw, whereas `get_imagehandle`
(from Items) tries Raw (DD) first and falls back to Segmented. -/
theorem claim4_bruteforce_order : ∀ (e : Bool) (isrc : ItemSrc) (fsrc : FileSrc),
    (get_imagehandle_from_file e fsrc ImageType.unknown =
      (if e && fsrc.ewfOpens then Except.ok (some Handle.ewfh) else ghff_dd fsrc)) ∧
    (get_imagehandle e isrc ImageType.unknown =
      (if isrc.firstOpens then Except.ok (some Handle.tsk) else gh_ewf e isrc)) := by
  intro e isrc fsrc
  obtain ⟨fo, eo⟩ := isrc
  obtain ⟨ewo, ddo⟩ := fsrc
  cases e <;> cases fo <;> cases eo <;> cases ewo <;> cases ddo <;> exact ⟨rfl, rfl⟩

/-- Claim C5: enumeration is not side-effect free: running `get_items` appends
`self.name` to the instance's own `parents` list (lines 66-67 alias, then
append).  Re-running the enumeration on the mutated instance yields items with
a longer ancestry than the first run, so the two sequences differ. -/
theorem claim5_rerun_differs :
    (DImg.getItems false exSimple true).1 = [⟨"f.txt", "/", none, 3, ["a.dd", "fs0"]⟩] ∧
    (DImg.getItems false (DImg.afterGetItems exSimple) true).1 =
      [⟨"f.txt", "/", none, 3, ["a.dd", "a.dd", "fs0"]⟩] ∧
    (DImg.getItems false exSimple true).1 ≠
      (DImg.getItems false (DImg.afterGetItems exSimple) true).1 ∧
    (DImg.afterGetItems exSimple).parents ≠ exSimple.parents :=
  ⟨rfl, rfl, by decide, by decide⟩

/-- Claim C6: a DiskImage with zero filesystems enumerates to the empty
sequence with no fault, and `find` over it likewise yields nothing and no
fault, for every search string, pattern and flag combination. -/
theorem claim6_empty_image : ∀ (e : Bool) (d : DImg), d.filesystems = FSL.dnil →
    ∀ (s : String) (p : Regex) (r ic rg : Bool),
      DImg.getItems e d r = ([], false) ∧ DImg.find e d s p r ic rg = ([], false) := by
  intro e d hfs s p r ic rg
  have hg : DImg.getItems e d r = ([], false) := by
    simp only [DImg.getItems, hfs]
  refine ⟨hg, ?_⟩
  simp only [DImg.find, hg, List.filter_nil]

/-- Claim C6 (witness): the empty image evaluated concretely. -/
theorem claim6_empty_image_witness :
    DImg.getItems false exEmpty true = ([], false) ∧
    DImg.find false exEmpty "x" Regex.dot true true false = ([], false) :=
  claim6_empty_image false exEmpty rfl "x" Regex.dot true true false

/-- Claim C7: `find` with `regex=True` keeps exactly the enumerated items whose
directory-joined `path/name` string has a prefix accepted by the pattern
(match anchored at the start, neither full-string nor substring semantics);
with `regex=False` it compares the bare name for equality, uppercasing both
sides when `ignorecase` is set; and `reMatch` is literally the
some-prefix-accepted predicate. -/
theorem claim7_find_matching : ∀ (e : Bool) (d : DImg) (s : String) (p : Regex)
    (r ic : Bool) (it : Item),
    (it ∈ (DImg.find e d s p r ic true).1 ↔
      it ∈ (DImg.getItems e d r).1 ∧
        reMatch ic p (pathJoin it.path it.name) = true) ∧
    (it ∈ (DImg.find e d s p r ic false).1 ↔
      it ∈ (DImg.getItems e d r).1 ∧
        (if ic then strUpper it.name = strUpper s else it.name = s)) ∧
    (reMatch ic p (pathJoin it.path it.name) = true ↔
      ∃ k, k ≤ (pathJoin it.path it.name).length ∧
        accepts ic p ((pathJoin it.path it.name).toList.take k) = true) := by
  intro e d s p r ic it
  refine ⟨?_, ?_, ?_⟩
  · simp [DImg.find, List.mem_filter, findTest]
  · cases ic <;> simp [DImg.find, List.mem_filter, findTest]
  · simp [reMatch, List.any_eq_true, List.mem_range, Nat.lt_succ_iff]

/-- Claim C8: with pyewf absent, a segmented extension still classifies as the
EWF image type; opening from a path returns the explicit `None` absence result
(the elif chain is guarded by the module flag), but opening from Items crashes
with `NameError` because `get_imagehandle` calls `pyewf.handle()` without
checking the flag. -/
theorem claim8_pyewf_absent : ∀ (isrc : ItemSrc) (fsrc : FileSrc),
    get_imagetype false "evidence.e01" = ImageType.ewfType ∧
    get_imagehandle_from_file false fsrc ImageType.ewfType = Except.ok none ∧
    get_imagehandle false isrc ImageType.ewfType = Except.error PFault.nameError := by
  intro isrc fsrc
  exact ⟨rfl, rfl, rfl⟩

/-- Claim C9: two DiskImages constructed without a `parents` argument share the
module-level default list object, so appending through one (as `get_items`
does) changes the ancestry observed on the other; `Item` and `FileSystem`
construction, by contrast, allocate a fresh list per instance. -/
theorem claim9_shared_default :
    Heap.get heapAtImport ((diskImageInitR heapAtImport "b.dd" none).2.parentsRef) = [] ∧
    (diskImageInitR heapAtImport "a.dd" none).2.parentsRef =
      (diskImageInitR heapAtImport "b.dd" none).2.parentsRef ∧
    Heap.get (diAppendNameR heapAtImport (diskImageInitR heapAtImport "a.dd" none).2)
      ((diskImageInitR heapAtImport "b.dd" none).2.parentsRef) = ["a.dd"] ∧
    (itemInitParents heapAtImport).2 ≠
      (itemInitParents (itemInitParents heapAtImport).1).2 ∧
    Heap.get (Heap.store (itemInitParents (itemInitParents heapAtImport).1).1
        (itemInitParents heapAtImport).2 ["z"])
      ((itemInitParents (itemInitParents heapAtImport).1).2) = [] ∧
    (fileSystemInitParents heapAtImport (some diskImageDefaultRef)).2 ≠
      diskImageDefaultRef :=
  ⟨rfl, rfl, rfl, by decide, rfl, by decide⟩

/-- Claim C10: for every requested path, when the directory cannot be resolved
`FileSystem.get_items` yields the explicit `None` absence marker as its first
element — never a silent empty sequence. -/
theorem claim10_absence_marker : ∀ (path : String) (r : Bool),
    (fsItemsRes path DirRes.unresolved r).1.head? = some none ∧
    (fsItemsRes path DirRes.unresolved r).1 ≠ [] := by
  intro path r
  rw [fsItemsRes_unresolved]
  exact ⟨rfl, by simp⟩

end Diskimage
